import Mathlib

/-!
# Verification of the CrewSync roster-to-calendar sync core

Shallow embedding of the calendar reconciliation logic of
`pilot-sync-mobile` (`syncICS` in the Google-Calendar upload module and the
ICS generation / identifier derivation in `generate-ics-headless.ts`),
together with proofs about the spec's claims on that logic.

JS `Date` values are modelled as epoch milliseconds (`Int`); JS strings are
Lean `String`s, with the handful of used `String.prototype` operations
(`trim`, `toLowerCase`, `includes`, `replace` with the two fixed regexes,
`padStart(2,'0')`, number-to-string template interpolation) re-implemented
over `List Char` so that every definition evaluates by kernel reduction.
-/

namespace CrewSync

/-! ## String primitives -/

/-- Whitespace test used to model JS `trim` / the regex `\s`. -/
def isWsChar (c : Char) : Bool := c.isWhitespace

/-- Character list of a JS `trim`: drop leading and trailing whitespace. -/
def trimChars (l : List Char) : List Char :=
  ((l.dropWhile isWsChar).reverse.dropWhile isWsChar).reverse

/-- Models `String(x).trim().toLowerCase()`, the uid standardization applied
to local ICS uids (upload module line 59) and to remote `iCalUID`s
(line 106). -/
def standardizeUID (s : String) : String :=
  String.mk ((trimChars s.data).map Char.toLower)

/-- Models JS `String.prototype.includes(pat)`: substring containment. -/
def containsSubstr (s pat : String) : Bool :=
  (List.range (s.data.length + 1)).any (fun i => pat.data.isPrefixOf (s.data.drop i))

/-! ## Local events parsed from the ICS file (`eventsToUpload`) -/

/-- One entry of `ical.parseICS` output as consumed by `syncICS`:
`type`, optional `uid`, `summary`, and the `start`/`end` `Date`s
(epoch milliseconds). -/
structure ParsedICSEntry where
  type : String
  uid : Option String
  summary : String
  startMs : Int
  endMs : Int
deriving DecidableEq

/-- Element of the `eventsToUpload` array: uid already standardized
(`e.uid ? String(e.uid).trim().toLowerCase() : ''`), summary and the two
`Date`s kept (source also keeps ISO strings of the dates, which are unused
downstream and omitted here). -/
structure LocalEvent where
  uid : String
  summary : String
  startMs : Int
  endMs : Int
deriving DecidableEq

/-- `eventsToUpload` (upload module lines 56-65): keep the `VEVENT` entries
and standardize each uid, missing uid becoming `""`. No other filtering is
performed — in particular nothing checks `start < end`. -/
def eventsToUpload (entries : List ParsedICSEntry) : List LocalEvent :=
  (entries.filter (fun e => e.type == "VEVENT")).map (fun e =>
    { uid := match e.uid with
        | some u => standardizeUID u
        | none => ""
      summary := e.summary
      startMs := e.startMs
      endMs := e.endMs })

/-! ## Sync window (upload module lines 73-84) -/

/-- One civil day in milliseconds; `setDate(getDate() ± 1)` in a
fixed-offset timezone (Asia/Taipei, no DST) shifts the epoch value by
exactly this amount. -/
def dayMs : Int := 86400000

/-- `Math.min(...allStartDates.map(d => d.getTime()))`; only ever invoked
on a non-empty list in the source (the empty case returns earlier). -/
def earliestStartMs : List LocalEvent → Int
  | [] => 0
  | e :: rest => rest.foldl (fun acc x => min acc x.startMs) e.startMs

/-- `Math.max(...allEndDates.map(d => d.getTime()))`. -/
def latestEndMs : List LocalEvent → Int
  | [] => 0
  | e :: rest => rest.foldl (fun acc x => max acc x.endMs) e.endMs

/-- `timeMin` / `timeMax`: earliest start minus one day, latest end plus
one day. -/
def computeWindow (evs : List LocalEvent) : Int × Int :=
  (earliestStartMs evs - dayMs, latestEndMs evs + dayMs)

/-! ## Remote listing, uid map and deletion candidates (lines 89-123) -/

/-- A remote event as returned by `calendar.events.list`; exactly the
fields the sync logic reads. -/
structure RemoteEvent where
  id : Option String
  iCalUID : Option String
  summary : Option String
  description : Option String
deriving DecidableEq

/-- `ev.description && ev.description.includes('Imported from CrewSync')`
(a missing or empty description is falsy and yields `false`; an empty
string contains no non-empty substring, so `Option` suffices). -/
def descHasMarker (ev : RemoteEvent) : Bool :=
  match ev.description with
  | some d => containsSubstr d "Imported from CrewSync"
  | none => false

/-- The `(standardizedUID, ev.id)` pair a listed remote event contributes
to `existingUIDMap`, when both `iCalUID` and `id` are present (line 105). -/
def entryOf (ev : RemoteEvent) : Option (String × String) :=
  match ev.iCalUID, ev.id with
  | some u, some i => some (standardizeUID u, i)
  | _, _ => none

/-- One `Map.set(standardizedUID, ev.id)` step (line 107): a `set` on an
existing key replaces its value. -/
def uidMapStep (m : String → Option String) (ev : RemoteEvent) : String → Option String :=
  match entryOf ev with
  | some (k, v) => fun q => if q = k then some v else m q
  | none => m

/-- `existingUIDMap` as the lookup function it denotes: built by iterating
`Map.set(standardizedUID, ev.id)` over the listing in order, so a later
event with the same standardized uid overwrites an earlier one. -/
def existingUIDMap (remote : List RemoteEvent) : String → Option String :=
  remote.foldl uidMapStep (fun _ => none)

/-- Entry of the `eventsToDelete` array (lines 114-118). -/
structure DeleteCandidate where
  summary : String
  eventId : String
  uid : String
deriving DecidableEq

/-- Per-event deletion-candidate test (lines 104-121): only events with
both `iCalUID` and `id` are considered; the event must carry the CrewSync
marker (standardized uid contains `@crewsync`, or description contains
`Imported from CrewSync`) and its standardized uid must be absent from the
local uid set. -/
def deleteCandidate (icsUIDs : List String) (ev : RemoteEvent) : Option DeleteCandidate :=
  match ev.iCalUID, ev.id with
  | some u, some i =>
    let su := standardizeUID u
    let isCrewSyncEvent := containsSubstr su "@crewsync" || descHasMarker ev
    if isCrewSyncEvent && !(icsUIDs.contains su) then
      some { summary := ev.summary.getD "未知事件", eventId := i, uid := su }
    else none
  | _, _ => none

/-- The `eventsToDelete` array accumulated over the whole listing. -/
def eventsToDelete (icsUIDs : List String) (remote : List RemoteEvent) :
    List DeleteCandidate :=
  remote.filterMap (deleteCandidate icsUIDs)

/-! ## Apply phase (lines 126-181) -/

/-- Outcome of one `calendar.events.delete` call: success, failure whose
message contains `Resource has been deleted`, or any other failure. -/
inductive DeleteOutcome where
  | ok
  | alreadyGone
  | failOther
deriving DecidableEq

/-- Outcome of one `calendar.events.insert` / `update` call. -/
inductive OpOutcome where
  | ok
  | fail
deriving DecidableEq

/-- Remote calendar calls issued by one sync run, in order. -/
inductive RemoteCall where
  | listCall (timeMin timeMax : Int)
  | deleteCall (eventId : String)
  | updateCall (eventId : String) (uid : String)
  | insertCall (uid : String)
deriving DecidableEq

/-- Deletion loop (lines 126-139): one `delete` call per candidate; the
counter is incremented on success and also when the failure message says
the resource was already deleted; any other failure is only logged. -/
def runDeletes (outcome : String → DeleteOutcome) :
    List DeleteCandidate → Nat × List RemoteCall
  | [] => (0, [])
  | c :: rest =>
    let (n, calls) := runDeletes outcome rest
    (match outcome c.eventId with
     | .ok => n + 1
     | .alreadyGone => n + 1
     | .failOther => n,
     RemoteCall.deleteCall c.eventId :: calls)

/-- Upsert loop (lines 145-181): for each local event, an `update` call
when its uid is in `existingUIDMap` (payload never compared), otherwise an
`insert` call; the matching counter is incremented only when the call
succeeds, a failure is caught and logged and the loop continues. `i` is
the position of the event in the upload list, used to index the outcome of
its single remote call. Returns `(addedCount, updatedCount, calls)`. -/
def runUpserts (m : String → Option String) (outcome : Nat → OpOutcome) :
    List LocalEvent → Nat → Nat × Nat × List RemoteCall
  | [], _ => (0, 0, [])
  | e :: rest, i =>
    let (a, u, calls) := runUpserts m outcome rest (i + 1)
    match m e.uid with
    | some eid =>
      (a, (match outcome i with | .ok => u + 1 | .fail => u),
       RemoteCall.updateCall eid e.uid :: calls)
    | none =>
      ((match outcome i with | .ok => a + 1 | .fail => a), u,
       RemoteCall.insertCall e.uid :: calls)

/-- The counts returned by `syncICS`. -/
structure SyncResult where
  addedCount : Nat
  updatedCount : Nat
  deletedCount : Nat
  totalCount : Nat
deriving DecidableEq

/-- The reconciliation core of `syncICS`, given the parsed local events,
the (flattened, in listing order) remote listing for the window, and the
outcome of each remote mutation. Returns the `SyncResult` together with
the trace of remote calendar calls issued, in order: if the local set is
empty a zero result is returned with no remote call; otherwise one listing
over the computed window, then the deletions, then the upserts. -/
def syncICS (evs : List LocalEvent) (remote : List RemoteEvent)
    (delOutcome : String → DeleteOutcome) (upOutcome : Nat → OpOutcome) :
    SyncResult × List RemoteCall :=
  if evs.isEmpty then
    ({ addedCount := 0, updatedCount := 0, deletedCount := 0, totalCount := 0 }, [])
  else
    let w := computeWindow evs
    let icsUIDs := evs.map (·.uid)
    let m := existingUIDMap remote
    let cands := eventsToDelete icsUIDs remote
    let del := runDeletes delOutcome cands
    let up := runUpserts m upOutcome evs 0
    ({ addedCount := up.1, updatedCount := up.2.1, deletedCount := del.1,
       totalCount := evs.length },
     RemoteCall.listCall w.1 w.2 :: (del.2 ++ up.2.2))

/-! ## ICS generation and identifier derivation (`generate-ics-headless.ts`) -/

/-- One scraped duty as accumulated in `dutyDetails`: display name and the
formatted `From`/`To` strings (empty when parsing failed). -/
structure DutyDetail where
  duty : String
  reportTime : String
  endTime : String
deriving DecidableEq

/-- The guard of the ICS emission loop (line 286):
`if (!d.reportTime || !d.endTime) continue;` — only emptiness of the two
time strings is tested, there is no `start < end` check. -/
def icsIncluded (d : DutyDetail) : Bool :=
  !(d.reportTime == "") && !(d.endTime == "")

/-- The duties for which a `VEVENT` is emitted into the generated ICS. -/
def emittedDuties (ds : List DutyDetail) : List DutyDetail :=
  ds.filter icsIncluded

/-- The slug part of the uid (line 298):
`d.duty.toLowerCase().replace(/\s+/g,'').replace(/[^a-z0-9\x2f]/g,'')` —
lower-case, drop whitespace, keep only `a-z`, `0-9` and `/`. -/
def slug (name : String) : String :=
  String.mk (((name.data.map Char.toLower).filter (fun c => !isWsChar c)).filter
    (fun c => (97 ≤ c.toNat && c.toNat ≤ 122) || (48 ≤ c.toNat && c.toNat ≤ 57) || c == '/'))

/-- The decimal digit character for `d < 10`. -/
def digitCh (d : Nat) : Char := Char.ofNat (48 + d)

/-- Fuel-driven decimal rendering accumulator (structural, so that it
evaluates by kernel reduction). -/
def decDigitsCore (fuel n : Nat) (acc : List Char) : List Char :=
  match fuel with
  | 0 => acc
  | fuel + 1 =>
    if n < 10 then digitCh n :: acc
    else decDigitsCore fuel (n / 10) (digitCh (n % 10) :: acc)

/-- Decimal digit string of a natural number, as produced by JS template
interpolation of a number. -/
def decDigits (n : Nat) : List Char := decDigitsCore (n + 1) n []

/-- JS `String(n).padStart(2, '0')`. -/
def pad2 (n : Nat) : List Char :=
  if (decDigits n).length < 2 then '0' :: decDigits n else decDigits n

/-- A duty's civil start (or end) date-time as scraped:
year, month (1-12), day, hour, minute. -/
structure DutyDateTime where
  year : Nat
  month : Nat
  day : Nat
  hour : Nat
  minute : Nat
deriving DecidableEq

/-- Field ranges of a genuine civil date-time. -/
def DutyDateTime.Valid (t : DutyDateTime) : Prop :=
  1 ≤ t.month ∧ t.month ≤ 12 ∧ 1 ≤ t.day ∧ t.day ≤ 31 ∧ t.hour < 24 ∧ t.minute < 60

/-- Character string produced by `toICS` (lines 288-294) for a duty time:
`${y}${m.padStart(2,'0')}${day.padStart(2,'0')}T${HH}${MM}00`.
`toICS` itself re-parses the `"YYYY.Mon.DD HHMML"` string built by
`parseFullDateTime`; for a well-formed scraped time its net effect is
exactly this formatting of the underlying civil date-time. -/
def toICSDateChars (t : DutyDateTime) : List Char :=
  decDigits t.year ++ pad2 t.month ++ pad2 t.day ++ 'T' ::
    (pad2 t.hour ++ pad2 t.minute ++ ['0', '0'])

/-- `toICS` output as a string. -/
def toICSDate (t : DutyDateTime) : String := String.mk (toICSDateChars t)

/-- The derived event identifier (line 298):
`` `${slug}-${start}@crewsync` ``. -/
def dutyUID (name : String) (start : DutyDateTime) : String :=
  slug name ++ "-" ++ toICSDate start ++ "@crewsync"

/-! ## Specification-side helper definitions used in theorem statements -/

/-- Numeric value of a decimal digit string (used to invert `decDigits`). -/
def decValue (l : List Char) : Nat :=
  l.foldl (fun a c => a * 10 + (c.toNat - 48)) 0

/-- A local event whose upsert succeeded as an insert: its uid is not in
the remote uid map and its single remote call succeeded. -/
def insertSuccess (m : String → Option String) (outcome : Nat → OpOutcome)
    (p : Nat × LocalEvent) : Bool :=
  (m p.2.uid).isNone && decide (outcome p.1 = OpOutcome.ok)

/-- A local event whose upsert succeeded as an update. -/
def updateSuccess (m : String → Option String) (outcome : Nat → OpOutcome)
    (p : Nat × LocalEvent) : Bool :=
  (m p.2.uid).isSome && decide (outcome p.1 = OpOutcome.ok)

/-- A deletion that counts: the delete call succeeded or failed only
because the remote object was already gone. -/
def deleteSuccess (f : String → DeleteOutcome) (c : DeleteCandidate) : Bool :=
  decide (f c.eventId ≠ DeleteOutcome.failOther)

/-- The single remote call the upsert loop issues for one local event. -/
def upsertCallOf (m : String → Option String) (e : LocalEvent) : RemoteCall :=
  match m e.uid with
  | some eid => RemoteCall.updateCall eid e.uid
  | none => RemoteCall.insertCall e.uid

/-! ## Window lemmas -/

lemma foldl_min_le_init (l : List LocalEvent) (a : Int) :
    l.foldl (fun acc x => min acc x.startMs) a ≤ a := by
  induction l generalizing a with
  | nil => exact le_refl a
  | cons x t ih => exact le_trans (ih (min a x.startMs)) (min_le_left _ _)

lemma foldl_min_le_mem (l : List LocalEvent) :
    ∀ (a : Int) (e : LocalEvent), e ∈ l →
      l.foldl (fun acc x => min acc x.startMs) a ≤ e.startMs := by
  induction l with
  | nil => intro a e he; cases he
  | cons x t ih =>
    intro a e he
    simp only [List.foldl_cons]
    rcases List.mem_cons.mp he with h | h
    · subst h
      exact le_trans (foldl_min_le_init t (min a e.startMs)) (min_le_right _ _)
    · exact ih (min a x.startMs) e h

lemma init_le_foldl_max (l : List LocalEvent) (a : Int) :
    a ≤ l.foldl (fun acc x => max acc x.endMs) a := by
  induction l generalizing a with
  | nil => exact le_refl a
  | cons x t ih => exact le_trans (le_max_left _ _) (ih (max a x.endMs))

lemma mem_le_foldl_max (l : List LocalEvent) :
    ∀ (a : Int) (e : LocalEvent), e ∈ l →
      e.endMs ≤ l.foldl (fun acc x => max acc x.endMs) a := by
  induction l with
  | nil => intro a e he; cases he
  | cons x t ih =>
    intro a e he
    simp only [List.foldl_cons]
    rcases List.mem_cons.mp he with h | h
    · subst h
      exact le_trans (le_max_right _ _) (init_le_foldl_max t (max a e.endMs))
    · exact ih (max a x.endMs) e h

lemma earliestStartMs_le (evs : List LocalEvent) (e : LocalEvent) (he : e ∈ evs) :
    earliestStartMs evs ≤ e.startMs := by
  cases evs with
  | nil => cases he
  | cons x t =>
    rcases List.mem_cons.mp he with h | h
    · subst h
      exact foldl_min_le_init t e.startMs
    · exact foldl_min_le_mem t x.startMs e h

lemma le_latestEndMs (evs : List LocalEvent) (e : LocalEvent) (he : e ∈ evs) :
    e.endMs ≤ latestEndMs evs := by
  cases evs with
  | nil => cases he
  | cons x t =>
    rcases List.mem_cons.mp he with h | h
    · subst h
      exact init_le_foldl_max t e.endMs
    · exact mem_le_foldl_max t x.endMs e h

/-- C4: For every non-empty local event set, the computed sync window
equals [earliest local event start minus 1 day, latest local event end
plus 1 day]; in particular every local event's `[start, end]` interval
expanded by one day on each side is contained in the window. -/
theorem sync_window_contains_all_events (evs : List LocalEvent) (_hne : evs ≠ []) :
    computeWindow evs = (earliestStartMs evs - dayMs, latestEndMs evs + dayMs) ∧
    ∀ e ∈ evs, (computeWindow evs).1 ≤ e.startMs - dayMs ∧
      e.endMs + dayMs ≤ (computeWindow evs).2 := by
  refine ⟨rfl, fun e he => ⟨?_, ?_⟩⟩
  · exact sub_le_sub_right (earliestStartMs_le evs e he) dayMs
  · exact add_le_add_right (le_latestEndMs evs e he) dayMs

theorem sync_window_contains_all_events_witness :
    ([⟨"u1", "JX101 NRT", 1000, 2000⟩] : List LocalEvent) ≠ [] ∧
    computeWindow [⟨"u1", "JX101 NRT", 1000, 2000⟩] =
      (earliestStartMs [⟨"u1", "JX101 NRT", 1000, 2000⟩] - dayMs,
       latestEndMs [⟨"u1", "JX101 NRT", 1000, 2000⟩] + dayMs) ∧
    ∀ e ∈ ([⟨"u1", "JX101 NRT", 1000, 2000⟩] : List LocalEvent),
      (computeWindow [⟨"u1", "JX101 NRT", 1000, 2000⟩]).1 ≤ e.startMs - dayMs ∧
      e.endMs + dayMs ≤ (computeWindow [⟨"u1", "JX101 NRT", 1000, 2000⟩]).2 := by
  refine ⟨by decide, ?_⟩
  exact sync_window_contains_all_events [⟨"u1", "JX101 NRT", 1000, 2000⟩] (by decide)

/-- C3: If the set of local events parsed from the ICS input is empty,
reconciliation returns the zero result immediately and issues no remote
calendar call at all (empty call trace: no listing, insert, update or
delete). -/
theorem empty_local_set_no_remote_calls (entries : List ParsedICSEntry)
    (remote : List RemoteEvent) (delOutcome : String → DeleteOutcome)
    (upOutcome : Nat → OpOutcome) (h : eventsToUpload entries = []) :
    syncICS (eventsToUpload entries) remote delOutcome upOutcome =
      ({ addedCount := 0, updatedCount := 0, deletedCount := 0, totalCount := 0 }, []) := by
  rw [h]
  rfl

theorem empty_local_set_no_remote_calls_witness :
    eventsToUpload [⟨"VTIMEZONE", none, "tz", 0, 0⟩] = [] ∧
    syncICS (eventsToUpload [⟨"VTIMEZONE", none, "tz", 0, 0⟩])
        [⟨some "id1", some "x@crewsync", some "s", some "Imported from CrewSync"⟩]
        (fun _ => DeleteOutcome.ok) (fun _ => OpOutcome.ok) =
      ({ addedCount := 0, updatedCount := 0, deletedCount := 0, totalCount := 0 }, []) := by
  refine ⟨by decide, ?_⟩
  exact empty_local_set_no_remote_calls _ _ _ _ (by decide)

/-! ## Deletion-loop lemmas -/

lemma runDeletes_calls (f : String → DeleteOutcome) (cands : List DeleteCandidate) :
    (runDeletes f cands).2 = cands.map (fun c => RemoteCall.deleteCall c.eventId) := by
  induction cands with
  | nil => rfl
  | cons c rest ih =>
    simp only [runDeletes, List.map_cons]
    rw [ih]

lemma runDeletes_count (f : String → DeleteOutcome) (cands : List DeleteCandidate) :
    (runDeletes f cands).1 = cands.countP (deleteSuccess f) := by
  induction cands with
  | nil => rfl
  | cons c rest ih =>
    simp only [runDeletes, List.countP_cons]
    cases h : f c.eventId <;>
      simp [deleteSuccess, h, ih]

/-- C7: every deletion candidate triggers exactly one delete call; a
successful delete counts exactly once per candidate, and a delete failing
with `Resource has been deleted` (the remote object already gone, as on a
retry after deletion) also counts, so the deleted count is the same in
both scenarios. -/
theorem delete_idempotent_counting (f : String → DeleteOutcome)
    (cands : List DeleteCandidate) :
    (runDeletes f cands).2 = cands.map (fun c => RemoteCall.deleteCall c.eventId) ∧
    (runDeletes (fun _ => DeleteOutcome.ok) cands).1 = cands.length ∧
    (runDeletes (fun _ => DeleteOutcome.alreadyGone) cands).1 = cands.length := by
  refine ⟨runDeletes_calls f cands, ?_, ?_⟩ <;>
    · rw [runDeletes_count]
      simp [deleteSuccess]

/-! ## Upsert-loop lemmas -/

lemma runUpserts_calls (m : String → Option String) (outcome : Nat → OpOutcome) :
    ∀ (evs : List LocalEvent) (i : Nat),
      (runUpserts m outcome evs i).2.2 = evs.map (upsertCallOf m) := by
  intro evs
  induction evs with
  | nil => intro i; rfl
  | cons e rest ih =>
    intro i
    simp only [runUpserts, List.map_cons]
    cases h : m e.uid <;>
      simp [upsertCallOf, h, ih (i + 1)]

lemma runUpserts_added (m : String → Option String) (outcome : Nat → OpOutcome) :
    ∀ (evs : List LocalEvent) (i : Nat),
      (runUpserts m outcome evs i).1 =
        (List.enumFrom i evs).countP (insertSuccess m outcome) := by
  intro evs
  induction evs with
  | nil => intro i; rfl
  | cons e rest ih =>
    intro i
    simp only [runUpserts, List.enumFrom, List.countP_cons]
    cases h : m e.uid <;> cases ho : outcome i <;>
      simp [insertSuccess, h, ho, ih (i + 1)]

lemma runUpserts_updated (m : String → Option String) (outcome : Nat → OpOutcome) :
    ∀ (evs : List LocalEvent) (i : Nat),
      (runUpserts m outcome evs i).2.1 =
        (List.enumFrom i evs).countP (updateSuccess m outcome) := by
  intro evs
  induction evs with
  | nil => intro i; rfl
  | cons e rest ih =>
    intro i
    simp only [runUpserts, List.enumFrom, List.countP_cons]
    cases h : m e.uid <;> cases ho : outcome i <;>
      simp [updateSuccess, h, ho, ih (i + 1)]

/-- C2: the upsert loop issues, for each local event of the upload set in
order, exactly one remote call: an update (addressed to the mapped remote
event id) when its uid is a key of the map built from the remote listing,
an insert otherwise. The trace does not depend on the call outcomes, and
no payload comparison is involved: an update is emitted even when nothing
differs from the remote state. -/
theorem upsert_dichotomy (remote : List RemoteEvent) (outcome : Nat → OpOutcome)
    (evs : List LocalEvent) (i : Nat) :
    (runUpserts (existingUIDMap remote) outcome evs i).2.2 =
      evs.map (upsertCallOf (existingUIDMap remote)) ∧
    ∀ e : LocalEvent,
      (∀ eid, existingUIDMap remote e.uid = some eid →
        upsertCallOf (existingUIDMap remote) e = RemoteCall.updateCall eid e.uid) ∧
      (existingUIDMap remote e.uid = none →
        upsertCallOf (existingUIDMap remote) e = RemoteCall.insertCall e.uid) := by
  refine ⟨runUpserts_calls _ outcome evs i, fun e => ⟨fun eid h => ?_, fun h => ?_⟩⟩ <;>
    simp [upsertCallOf, h]

/-- C8: a failing insert, update or delete call does not abort the run:
with the local set non-empty, the trace still contains one listing, one
delete call per candidate and one upsert call per local event (so every
remaining local event is processed whatever fails); each counter counts
exactly the successful operations of its category (a failed call
increments nothing); and the returned total is always the number of local
events, regardless of outcomes. -/
theorem per_event_failure_isolation (evs : List LocalEvent) (remote : List RemoteEvent)
    (delOutcome : String → DeleteOutcome) (upOutcome : Nat → OpOutcome)
    (h : evs ≠ []) :
    (syncICS evs remote delOutcome upOutcome).1.totalCount = evs.length ∧
    (syncICS evs remote delOutcome upOutcome).2 =
      RemoteCall.listCall (computeWindow evs).1 (computeWindow evs).2 ::
        ((eventsToDelete (evs.map (·.uid)) remote).map
            (fun c => RemoteCall.deleteCall c.eventId) ++
          evs.map (upsertCallOf (existingUIDMap remote))) ∧
    (syncICS evs remote delOutcome upOutcome).1.addedCount =
      (List.enumFrom 0 evs).countP (insertSuccess (existingUIDMap remote) upOutcome) ∧
    (syncICS evs remote delOutcome upOutcome).1.updatedCount =
      (List.enumFrom 0 evs).countP (updateSuccess (existingUIDMap remote) upOutcome) ∧
    (syncICS evs remote delOutcome upOutcome).1.deletedCount =
      (eventsToDelete (evs.map (·.uid)) remote).countP (deleteSuccess delOutcome) := by
  cases evs with
  | nil => exact absurd rfl h
  | cons e rest =>
    refine ⟨?_, ?_, ?_, ?_, ?_⟩ <;>
      simp [syncICS, runDeletes_calls, runDeletes_count, runUpserts_calls,
        runUpserts_added, runUpserts_updated]

theorem per_event_failure_isolation_witness :
    ([⟨"u1", "JX101 NRT", 1000, 2000⟩, ⟨"u2", "GND", 3000, 4000⟩] : List LocalEvent) ≠ [] ∧
    (syncICS [⟨"u1", "JX101 NRT", 1000, 2000⟩, ⟨"u2", "GND", 3000, 4000⟩]
        [⟨some "rid1", some "u1", some "JX101 NRT", some "Imported from CrewSync"⟩]
        (fun _ => DeleteOutcome.failOther) (fun _ => OpOutcome.fail)).1.totalCount =
      ([⟨"u1", "JX101 NRT", 1000, 2000⟩, ⟨"u2", "GND", 3000, 4000⟩] : List LocalEvent).length ∧
    (syncICS [⟨"u1", "JX101 NRT", 1000, 2000⟩, ⟨"u2", "GND", 3000, 4000⟩]
        [⟨some "rid1", some "u1", some "JX101 NRT", some "Imported from CrewSync"⟩]
        (fun _ => DeleteOutcome.failOther) (fun _ => OpOutcome.fail)).1.addedCount =
      (List.enumFrom 0 [⟨"u1", "JX101 NRT", 1000, 2000⟩, ⟨"u2", "GND", 3000, 4000⟩]).countP
        (insertSuccess
          (existingUIDMap
            [⟨some "rid1", some "u1", some "JX101 NRT", some "Imported from CrewSync"⟩])
          (fun _ => OpOutcome.fail)) := by
  refine ⟨by decide, ?_⟩
  have h := per_event_failure_isolation
    [⟨"u1", "JX101 NRT", 1000, 2000⟩, ⟨"u2", "GND", 3000, 4000⟩]
    [⟨some "rid1", some "u1", some "JX101 NRT", some "Imported from CrewSync"⟩]
    (fun _ => DeleteOutcome.failOther) (fun _ => OpOutcome.fail) (by decide)
  exact ⟨h.1, h.2.2.1⟩

/-! ## Duplicate remote uid resolution (C5) -/

lemma foldl_uidMapStep_no_key (l : List RemoteEvent) :
    ∀ (m : String → Option String) (k : String),
      (∀ ev ∈ l, ∀ p, entryOf ev = some p → p.1 ≠ k) →
      l.foldl uidMapStep m k = m k := by
  induction l with
  | nil => intro m k _; rfl
  | cons ev rest ih =>
    intro m k hk
    simp only [List.foldl_cons]
    rw [ih (uidMapStep m ev) k (fun e he => hk e (List.mem_cons_of_mem ev he))]
    unfold uidMapStep
    cases hp : entryOf ev with
    | none => rfl
    | some p =>
      obtain ⟨pk, pv⟩ := p
      have hne : pk ≠ k := hk ev (List.mem_cons_self ev rest) (pk, pv) hp
      show (if k = pk then some pv else m k) = m k
      rw [if_neg (fun h : k = pk => hne h.symm)]

/-- C5 counterexample: two remote events share the standardized external
id `u@crewsync` with handles `id1` (first in listing order) and `id2`
(second); the map lookup used for updates yields `id2`, not the
first-encountered `id1` — JS `Map.set` overwrites on duplicate keys. -/
theorem duplicate_uid_first_encountered_refuted :
    existingUIDMap
        [⟨some "id1", some "u@crewsync", none, none⟩,
         ⟨some "id2", some "u@crewsync", none, none⟩] "u@crewsync" = some "id2" ∧
    (some "id2" : Option String) ≠ some "id1" := by
  constructor
  · rfl
  · decide

/-- C5 amended: if the remote listing returns several remote events
carrying the same standardized external id, the reconciler uses, for any
subsequent update addressed to that id, the remote event handle that was
LAST encountered in listing order (each `Map.set` on an existing key
overwrites the earlier handle). -/
theorem duplicate_uid_last_encountered (l₁ l₂ : List RemoteEvent) (ev : RemoteEvent)
    (k v : String) (hev : entryOf ev = some (k, v))
    (hlast : ∀ ev' ∈ l₂, ∀ p, entryOf ev' = some p → p.1 ≠ k) :
    existingUIDMap (l₁ ++ ev :: l₂) k = some v := by
  unfold existingUIDMap
  rw [List.foldl_append, List.foldl_cons]
  rw [foldl_uidMapStep_no_key l₂ _ k hlast]
  unfold uidMapStep
  rw [hev]
  simp

theorem duplicate_uid_last_encountered_witness :
    entryOf ⟨some "id2", some "u@crewsync", none, none⟩ = some ("u@crewsync", "id2") ∧
    existingUIDMap
        ([⟨some "id1", some "u@crewsync", none, none⟩] ++
          ⟨some "id2", some "u@crewsync", none, none⟩ :: []) "u@crewsync" = some "id2" := by
  refine ⟨by decide, ?_⟩
  exact duplicate_uid_last_encountered [⟨some "id1", some "u@crewsync", none, none⟩] []
    ⟨some "id2", some "u@crewsync", none, none⟩ "u@crewsync" "id2" (by decide)
    (fun e he => absurd he (List.not_mem_nil e))

/-! ## Foreign-event safety (C1) -/

/-- C1: a listed remote event that does not carry the namespace marker —
its standardized (trimmed, lower-cased, as the code examines it) `iCalUID`
does not contain `@crewsync`, and its description does not contain
`Imported from CrewSync` — is never a deletion candidate, whatever the
local uid set `icsUIDs` is (so regardless of any title or time
coincidence with local events), and contributes nothing to the
`eventsToDelete` set wherever it occurs in the listing. -/
theorem foreign_event_never_deleted (icsUIDs : List String) (ev : RemoteEvent)
    (huid : containsSubstr (standardizeUID (ev.iCalUID.getD "")) "@crewsync" = false)
    (hdesc : descHasMarker ev = false) :
    deleteCandidate icsUIDs ev = none ∧
    ∀ remote : List RemoteEvent,
      eventsToDelete icsUIDs (remote ++ [ev]) = eventsToDelete icsUIDs remote := by
  have hnone : deleteCandidate icsUIDs ev = none := by
    unfold deleteCandidate
    cases hI : ev.iCalUID with
    | none => cases ev.id <;> rfl
    | some u =>
      cases hid : ev.id with
      | none => rfl
      | some i =>
        rw [hI] at huid
        simp only [Option.getD_some] at huid
        simp [huid, hdesc]
  refine ⟨hnone, fun remote => ?_⟩
  unfold eventsToDelete
  rw [List.filterMap_append]
  simp [hnone]

theorem foreign_event_never_deleted_witness :
    containsSubstr
        (standardizeUID
          ((⟨some "rid7", some "personal-dentist-42", some "Dentist", some "private"⟩ :
            RemoteEvent).iCalUID.getD "")) "@crewsync" = false ∧
    descHasMarker
        ⟨some "rid7", some "personal-dentist-42", some "Dentist", some "private"⟩ = false ∧
    deleteCandidate []
        ⟨some "rid7", some "personal-dentist-42", some "Dentist", some "private"⟩ = none := by
  refine ⟨by decide, by decide, ?_⟩
  exact (foreign_event_never_deleted []
    ⟨some "rid7", some "personal-dentist-42", some "Dentist", some "private"⟩
    (by decide) (by decide)).1

/-! ## Case / whitespace invariance of uid matching (C10) -/

/-- C10: both sides of the matching standardize uids with
`trim().toLowerCase()`: the upload set carries `standardizeUID` of the raw
local ICS uid, and a remote event is keyed and checked under
`standardizeUID` of its raw `iCalUID`; hence whenever the two raw uids
agree after trimming and lower-casing (in particular when they differ only
in letter case or surrounding whitespace), the local event finds the
remote handle in the map, and the (marked) remote event is not a deletion
candidate — they are treated as the same event. -/
theorem uid_matching_case_ws_invariant (rawL rawR rid s : String) (a b : Int)
    (hsame : standardizeUID rawL = standardizeUID rawR) :
    (eventsToUpload [⟨"VEVENT", some rawL, s, a, b⟩]).map (·.uid) =
      [standardizeUID rawL] ∧
    existingUIDMap [⟨some rid, some rawR, none, none⟩] (standardizeUID rawL) =
      some rid ∧
    deleteCandidate [standardizeUID rawL]
        ⟨some rid, some rawR, none, some "Imported from CrewSync"⟩ = none := by
  refine ⟨rfl, ?_, ?_⟩
  · unfold existingUIDMap
    simp only [List.foldl_cons, List.foldl_nil]
    unfold uidMapStep entryOf
    simp [hsame]
  · unfold deleteCandidate
    simp only []
    have hmem : List.contains [standardizeUID rawL] (standardizeUID rawR) = true := by
      simp [List.contains, hsame]
    simp [hmem]
    exact fun _ => hsame.symm

theorem uid_matching_case_ws_invariant_witness :
    standardizeUID "ABC@CrewSync" = standardizeUID "  abc@crewsync " ∧
    (eventsToUpload [⟨"VEVENT", some "ABC@CrewSync", "JX101 NRT", 1000, 2000⟩]).map (·.uid) =
      [standardizeUID "ABC@CrewSync"] ∧
    existingUIDMap [⟨some "rid9", some "  abc@crewsync ", none, none⟩]
        (standardizeUID "ABC@CrewSync") = some "rid9" ∧
    deleteCandidate [standardizeUID "ABC@CrewSync"]
        ⟨some "rid9", some "  abc@crewsync ", none, some "Imported from CrewSync"⟩ = none := by
  refine ⟨by decide, ?_⟩
  have h := uid_matching_case_ws_invariant "ABC@CrewSync" "  abc@crewsync " "rid9"
    "JX101 NRT" 1000 2000 (by decide)
  exact ⟨h.1, h.2.1, h.2.2⟩

/-! ## Decimal rendering lemmas (identifier derivation, C6) -/

instance (t : DutyDateTime) : Decidable t.Valid :=
  inferInstanceAs (Decidable (1 ≤ t.month ∧ t.month ≤ 12 ∧ 1 ≤ t.day ∧ t.day ≤ 31 ∧
    t.hour < 24 ∧ t.minute < 60))

lemma digitCh_toNat : ∀ d < 10, (digitCh d).toNat = 48 + d := by decide

lemma decDigitsCore_acc : ∀ (n fuel : Nat) (acc : List Char), n < fuel →
    decDigitsCore fuel n acc = decDigits n ++ acc := by
  intro n
  induction n using Nat.strong_induction_on with
  | _ n ih =>
    intro fuel acc hf
    cases fuel with
    | zero => exact absurd hf (Nat.not_lt_zero n)
    | succ f =>
      by_cases h10 : n < 10
      · simp [decDigitsCore, decDigits, h10]
      · have hpos : 0 < n := lt_of_lt_of_le (by norm_num) (le_of_not_lt h10)
        have hdiv : n / 10 < n := Nat.div_lt_self hpos (by norm_num)
        have hdivf : n / 10 < f := lt_of_lt_of_le hdiv (Nat.lt_succ_iff.mp hf)
        rw [show decDigitsCore (f + 1) n acc =
            decDigitsCore f (n / 10) (digitCh (n % 10) :: acc) from by
          simp [decDigitsCore, h10]]
        rw [ih (n / 10) hdiv f _ hdivf]
        have hrhs : decDigits n = decDigits (n / 10) ++ [digitCh (n % 10)] := by
          show decDigitsCore (n + 1) n [] = _
          rw [show decDigitsCore (n + 1) n [] =
              decDigitsCore n (n / 10) (digitCh (n % 10) :: []) from by
            simp [decDigitsCore, h10]]
          exact ih (n / 10) hdiv n _ hdiv
        rw [hrhs, List.append_assoc]
        rfl

lemma decDigits_lt10 (n : Nat) (h : n < 10) : decDigits n = [digitCh n] := by
  simp [decDigits, decDigitsCore, h]

lemma decDigits_ge10 (n : Nat) (h10 : ¬ n < 10) :
    decDigits n = decDigits (n / 10) ++ [digitCh (n % 10)] := by
  have hpos : 0 < n := lt_of_lt_of_le (by norm_num) (le_of_not_lt h10)
  have hdiv : n / 10 < n := Nat.div_lt_self hpos (by norm_num)
  show decDigitsCore (n + 1) n [] = _
  rw [show decDigitsCore (n + 1) n [] =
      decDigitsCore n (n / 10) (digitCh (n % 10) :: []) from by
    simp [decDigitsCore, h10]]
  exact decDigitsCore_acc (n / 10) n _ hdiv

lemma decValue_append_singleton (l : List Char) (c : Char) :
    decValue (l ++ [c]) = decValue l * 10 + (c.toNat - 48) := by
  simp [decValue, List.foldl_append]

lemma decValue_decDigits : ∀ n : Nat, decValue (decDigits n) = n := by
  intro n
  induction n using Nat.strong_induction_on with
  | _ n ih =>
    by_cases h10 : n < 10
    · rw [decDigits_lt10 n h10]
      simp [decValue, digitCh_toNat n h10]
    · have hpos : 0 < n := lt_of_lt_of_le (by norm_num) (le_of_not_lt h10)
      have hdiv : n / 10 < n := Nat.div_lt_self hpos (by norm_num)
      rw [decDigits_ge10 n h10, decValue_append_singleton, ih (n / 10) hdiv,
        digitCh_toNat (n % 10) (Nat.mod_lt n (by norm_num))]
      omega

lemma decDigits_inj (m n : Nat) (h : decDigits m = decDigits n) : m = n := by
  have := congrArg decValue h
  rwa [decValue_decDigits, decValue_decDigits] at this

lemma decDigits_length_lt10 (n : Nat) (h : n < 10) : (decDigits n).length = 1 := by
  rw [decDigits_lt10 n h]
  rfl

lemma pad2_eq_lt10 (n : Nat) (h : n < 10) : pad2 n = ['0', digitCh n] := by
  simp [pad2, decDigits_lt10 n h]

lemma pad2_eq_ge10 (n : Nat) (h10 : 10 ≤ n) (h100 : n < 100) :
    pad2 n = decDigits n ∧ (decDigits n).length = 2 := by
  have hd : n / 10 < 10 := by omega
  have hlen : (decDigits n).length = 2 := by
    rw [decDigits_ge10 n (not_lt.mpr h10), List.length_append,
      decDigits_length_lt10 (n / 10) hd]
    rfl
  exact ⟨by simp [pad2, hlen], hlen⟩

lemma pad2_length (n : Nat) (h : n < 100) : (pad2 n).length = 2 := by
  by_cases h10 : n < 10
  · rw [pad2_eq_lt10 n h10]
    rfl
  · obtain ⟨hp, hlen⟩ := pad2_eq_ge10 n (le_of_not_lt h10) h
    rw [hp, hlen]

lemma decValue_pad2 (n : Nat) (h : n < 100) : decValue (pad2 n) = n := by
  by_cases h10 : n < 10
  · rw [pad2_eq_lt10 n h10]
    have h0 : ('0' : Char).toNat = 48 := rfl
    simp [decValue, h0, digitCh_toNat n h10]
  · rw [(pad2_eq_ge10 n (le_of_not_lt h10) h).1]
    exact decValue_decDigits n

lemma pad2_inj (m n : Nat) (hm : m < 100) (hn : n < 100) (h : pad2 m = pad2 n) :
    m = n := by
  have := congrArg decValue h
  rwa [decValue_pad2 m hm, decValue_pad2 n hn] at this

lemma decDigits_mem : ∀ (n : Nat) (c : Char), c ∈ decDigits n →
    48 ≤ c.toNat ∧ c.toNat ≤ 57 := by
  intro n
  induction n using Nat.strong_induction_on with
  | _ n ih =>
    intro c hc
    by_cases h10 : n < 10
    · rw [decDigits_lt10 n h10] at hc
      rcases List.mem_singleton.mp hc with rfl
      rw [digitCh_toNat n h10]
      omega
    · have hpos : 0 < n := lt_of_lt_of_le (by norm_num) (le_of_not_lt h10)
      have hdiv : n / 10 < n := Nat.div_lt_self hpos (by norm_num)
      rw [decDigits_ge10 n h10] at hc
      rcases List.mem_append.mp hc with hc | hc
      · exact ih (n / 10) hdiv c hc
      · rcases List.mem_singleton.mp hc with rfl
        rw [digitCh_toNat (n % 10) (Nat.mod_lt n (by norm_num))]
        omega

lemma pad2_mem (n : Nat) (c : Char) (hc : c ∈ pad2 n) :
    48 ≤ c.toNat ∧ c.toNat ≤ 57 := by
  unfold pad2 at hc
  by_cases hl : (decDigits n).length < 2
  · rw [if_pos hl] at hc
    rcases List.mem_cons.mp hc with rfl | hc
    · exact ⟨by decide, by decide⟩
    · exact decDigits_mem n c hc
  · rw [if_neg hl] at hc
    exact decDigits_mem n c hc

/-! ## Unique-separator splitting -/

lemma append_cons_uniq {α : Type} (x : α) : ∀ (A₁ A₂ B₁ B₂ : List α),
    A₁ ++ x :: B₁ = A₂ ++ x :: B₂ → x ∉ A₁ → x ∉ A₂ → A₁ = A₂ ∧ B₁ = B₂ := by
  intro A₁
  induction A₁ with
  | nil =>
    intro A₂ B₁ B₂ h h₁ h₂
    cases A₂ with
    | nil => simpa using h
    | cons a t =>
      simp only [List.nil_append, List.cons_append, List.cons.injEq] at h
      exfalso
      apply h₂
      rw [← h.1]
      exact List.mem_cons_self x t
  | cons a t ih =>
    intro A₂ B₁ B₂ h h₁ h₂
    cases A₂ with
    | nil =>
      simp only [List.cons_append, List.nil_append, List.cons.injEq] at h
      exfalso
      apply h₁
      rw [h.1]
      exact List.mem_cons_self x t
    | cons a₂ t₂ =>
      simp only [List.cons_append, List.cons.injEq] at h
      have hrec := ih t₂ B₁ B₂ h.2
        (fun hx => h₁ (List.mem_cons_of_mem a hx))
        (fun hx => h₂ (List.mem_cons_of_mem a₂ hx))
      exact ⟨by rw [h.1, hrec.1], hrec.2⟩

/-! ## Character-class facts for the uid pieces -/

lemma slug_mem (nm : String) (c : Char) (hc : c ∈ (slug nm).data) :
    (97 ≤ c.toNat ∧ c.toNat ≤ 122) ∨ (48 ≤ c.toNat ∧ c.toNat ≤ 57) ∨ c = '/' := by
  have hp := (List.mem_filter.mp hc).2
  simpa [or_assoc] using hp

lemma dash_not_in_slug (nm : String) : '-' ∉ (slug nm).data := by
  intro hc
  have := slug_mem nm '-' hc
  revert this
  decide

lemma T_not_in_datePrefix (y mo d : Nat) :
    'T' ∉ decDigits y ++ (pad2 mo ++ pad2 d) := by
  intro hc
  have hT : ('T' : Char).toNat = 84 := rfl
  rcases List.mem_append.mp hc with hc | hc
  · have := decDigits_mem y 'T' hc
    omega
  · rcases List.mem_append.mp hc with hc | hc <;>
      · have := pad2_mem _ 'T' hc
        omega

lemma dash_not_in_toICSDateChars (t : DutyDateTime) : '-' ∉ toICSDateChars t := by
  intro hc
  have h45 : ('-' : Char).toNat = 45 := rfl
  unfold toICSDateChars at hc
  rcases List.mem_append.mp hc with hc | hc
  · rcases List.mem_append.mp hc with hc | hc
    · rcases List.mem_append.mp hc with hc | hc
      · have := decDigits_mem t.year '-' hc
        omega
      · have := pad2_mem t.month '-' hc
        omega
    · have := pad2_mem t.day '-' hc
      omega
  · rcases List.mem_cons.mp hc with hc | hc
    · exact absurd hc (by decide)
    · rcases List.mem_append.mp hc with hc | hc
      · rcases List.mem_append.mp hc with hc | hc
        · have := pad2_mem t.hour '-' hc
          omega
        · have := pad2_mem t.minute '-' hc
          omega
      · revert hc
        decide

/-! ## Injectivity of the uid derivation -/

lemma toICSDateChars_inj (t₁ t₂ : DutyDateTime) (h₁ : t₁.Valid) (h₂ : t₂.Valid)
    (h : toICSDateChars t₁ = toICSDateChars t₂) : t₁ = t₂ := by
  obtain ⟨hmo₁, hmo₁b, hd₁, hd₁b, hh₁, hmi₁⟩ := h₁
  obtain ⟨hmo₂, hmo₂b, hd₂, hd₂b, hh₂, hmi₂⟩ := h₂
  have hsplit := append_cons_uniq 'T'
    (decDigits t₁.year ++ (pad2 t₁.month ++ pad2 t₁.day))
    (decDigits t₂.year ++ (pad2 t₂.month ++ pad2 t₂.day))
    (pad2 t₁.hour ++ (pad2 t₁.minute ++ ['0', '0']))
    (pad2 t₂.hour ++ (pad2 t₂.minute ++ ['0', '0']))
    (by simpa [toICSDateChars, List.append_assoc] using h)
    (T_not_in_datePrefix t₁.year t₁.month t₁.day)
    (T_not_in_datePrefix t₂.year t₂.month t₂.day)
  obtain ⟨hA, hB⟩ := hsplit
  have hymd := List.append_inj' hA (by
    rw [List.length_append, List.length_append,
      pad2_length t₁.month (by omega), pad2_length t₁.day (by omega),
      pad2_length t₂.month (by omega), pad2_length t₂.day (by omega)])
  have hy : t₁.year = t₂.year := decDigits_inj _ _ hymd.1
  have hmd := List.append_inj hymd.2
    (by rw [pad2_length t₁.month (by omega), pad2_length t₂.month (by omega)])
  have hmo : t₁.month = t₂.month := pad2_inj _ _ (by omega) (by omega) hmd.1
  have hd : t₁.day = t₂.day := pad2_inj _ _ (by omega) (by omega) hmd.2
  have hhm := List.append_inj hB
    (by rw [pad2_length t₁.hour (by omega), pad2_length t₂.hour (by omega)])
  have hh : t₁.hour = t₂.hour := pad2_inj _ _ (by omega) (by omega) hhm.1
  have hmi2 := List.append_inj hhm.2
    (by rw [pad2_length t₁.minute (by omega), pad2_length t₂.minute (by omega)])
  have hmi : t₁.minute = t₂.minute := pad2_inj _ _ (by omega) (by omega) hmi2.1
  cases t₁
  cases t₂
  simp only at hy hmo hd hh hmi
  rw [hy, hmo, hd, hh, hmi]

lemma dutyUID_split (n₁ n₂ : String) (t₁ t₂ : DutyDateTime)
    (h : dutyUID n₁ t₁ = dutyUID n₂ t₂) :
    slug n₁ = slug n₂ ∧ toICSDateChars t₁ = toICSDateChars t₂ := by
  have hd : (slug n₁).data ++ '-' :: (toICSDateChars t₁ ++ "@crewsync".data) =
      (slug n₂).data ++ '-' :: (toICSDateChars t₂ ++ "@crewsync".data) := by
    have := congrArg String.data h
    simpa [dutyUID, toICSDate] using this
  obtain ⟨hA, hB⟩ := append_cons_uniq '-' _ _ _ _ hd
    (dash_not_in_slug n₁) (dash_not_in_slug n₂)
  constructor
  · have := congrArg String.mk hA
    simpa using this
  · exact List.append_cancel_right hB

/-- C6 counterexample: the two duty names `JX 101 NRT` and `JX101 NRT`
are different, yet with the same start date-time they derive the same id,
because the slug strips whitespace (and case, and punctuation) from the
name before hashing. -/
theorem id_discrimination_refuted :
    ("JX 101 NRT" : String) ≠ "JX101 NRT" ∧
    dutyUID "JX 101 NRT" ⟨2026, 2, 3, 9, 0⟩ = dutyUID "JX101 NRT" ⟨2026, 2, 3, 9, 0⟩ := by
  exact ⟨by decide, by decide⟩

/-- C6 amended: the derivation discriminates on the start date-time and on
the normalized name. Two duty records with the same name but different
(valid) start date-times always get different ids; and two records with
the same start whose names differ *after normalization* (lower-casing,
then stripping whitespace and every character outside `a-z0-9/`) also get
different ids. (Names that agree after normalization can collide, as the
counterexample shows.) -/
theorem id_discrimination_amended (n₁ n₂ : String) (t₁ t₂ : DutyDateTime)
    (h₁ : t₁.Valid) (h₂ : t₂.Valid)
    (hdiff : (n₁ = n₂ ∧ t₁ ≠ t₂) ∨ slug n₁ ≠ slug n₂) :
    dutyUID n₁ t₁ ≠ dutyUID n₂ t₂ := by
  intro h
  obtain ⟨hs, hc⟩ := dutyUID_split n₁ n₂ t₁ t₂ h
  have ht := toICSDateChars_inj t₁ t₂ h₁ h₂ hc
  rcases hdiff with ⟨-, hne⟩ | hne
  · exact hne ht
  · exact hne hs

theorem id_discrimination_amended_witness :
    DutyDateTime.Valid ⟨2026, 2, 3, 9, 0⟩ ∧ DutyDateTime.Valid ⟨2026, 2, 4, 9, 0⟩ ∧
    dutyUID "JX101 NRT" ⟨2026, 2, 3, 9, 0⟩ ≠ dutyUID "JX101 NRT" ⟨2026, 2, 4, 9, 0⟩ := by
  refine ⟨by decide, by decide, ?_⟩
  exact id_discrimination_amended "JX101 NRT" "JX101 NRT" ⟨2026, 2, 3, 9, 0⟩
    ⟨2026, 2, 4, 9, 0⟩ (by decide) (by decide) (Or.inl ⟨rfl, by decide⟩)

/-! ## Which records are dropped before emission (C9) -/

/-- C9 counterexample: a duty whose end precedes its start (report
`0900L`, end `0800L` on the same day) passes the only guard of the ICS
emission loop (non-empty time strings), and the corresponding parsed
event — whose start is not before its end — is in the upload set handed
to the reconciler; no `start < end` check exists anywhere on the path. -/
theorem invalid_duty_reaches_reconciler :
    icsIncluded ⟨"GND TRAINING", "2026.Feb.03 0900L", "2026.Feb.03 0800L"⟩ = true ∧
    emittedDuties [⟨"GND TRAINING", "2026.Feb.03 0900L", "2026.Feb.03 0800L"⟩] =
      [⟨"GND TRAINING", "2026.Feb.03 0900L", "2026.Feb.03 0800L"⟩] ∧
    (⟨"gndtraining-20260203t090000@crewsync", "GND TRAINING", 900, 800⟩ : LocalEvent) ∈
      eventsToUpload
        [⟨"VEVENT", some "gndtraining-20260203T090000@crewsync", "GND TRAINING", 900, 800⟩] ∧
    ¬((900 : Int) < 800) := by
  decide

/-- C9 amended: the only dropping performed before a `VEVENT` is emitted
is the emptiness test on the two formatted time strings (a record whose
`From`/`To` failed to parse); the reconciler's ingestion then keeps every
`VEVENT` — no `start < end` validation happens on either side, so records
with `start ≥ end` do reach the reconciler. -/
theorem drop_condition_is_emptiness_only (ds : List DutyDetail) (d : DutyDetail) :
    (d ∈ emittedDuties ds ↔ d ∈ ds ∧ d.reportTime ≠ "" ∧ d.endTime ≠ "") ∧
    ∀ entries : List ParsedICSEntry,
      (eventsToUpload entries).length =
        (entries.filter (fun e => e.type == "VEVENT")).length := by
  constructor
  · simp [emittedDuties, List.mem_filter, icsIncluded, and_assoc]
  · intro entries
    simp [eventsToUpload]

end CrewSync
